import Mathlib

/-!
# The `log` facade: options, builder, global logger

A shallow embedding of `log.go` and `options.go`.

* Go strings are Lean `String`s (sequences of runes, that is valid UTF-8); Go `int` and
  `zapcore.Level` (an `int8`) are `Int`: the code only compares these numbers with `0` and
  stores them, it does no arithmetic.
* An `io.Writer` interface value is `Option Writer`, `none` being the nil interface.
* A `*bool` is `Option Bool`, `none` being the nil pointer.
* A Go function taking `*Options` and mutating it is a function `Options → Options`.
* The zap engine and the lumberjack writer are external: a constructed pipeline is the
  record of the arguments the facade hands to their constructors, and a log call is the
  record of the engine method invoked with its arguments.
-/

namespace GoLog

/-! ## Data model -/

/-- Level is the alias of `zapcore.Level` (log.go, line 20). -/
abbrev Level := Int

/-- Modelled from the spec: the severity levels form the ordered enumeration
debug < info < warn < error < fatal. The constants alias the ones of the imported zap
library, which is not part of the sources; the numbers are those of `zapcore/level.go`
(`DebugLevel = iota - 1`, so that the zero value of `Level` is `InfoLevel`). -/
def DebugLevel : Level := -1

/-- InfoLevel is the default logging priority (the zero value of `Level`). -/
def InfoLevel : Level := 0

/-- WarnLevel, `zap.WarnLevel`. -/
def WarnLevel : Level := 1

/-- ErrorLevel, `zap.ErrorLevel`. -/
def ErrorLevel : Level := 2

/-- FatalLevel, `zap.FatalLevel` (zap has `DPanicLevel = 3` and `PanicLevel = 4` in between). -/
def FatalLevel : Level := 5

/-- ConsoleEncoder output the log with console. -/
def ConsoleEncoder : String := "console"

/-- JSONEncoder output the log with json format. -/
def JSONEncoder : String := "json"

/-- The fields of `lumberjack.Logger` that `WithFileWriter` fills in. -/
structure LumberjackLogger where
  Filename : String
  MaxSize : Int
  MaxAge : Int
  MaxBackups : Int
  Compress : Bool
  LocalTime : Bool
deriving DecidableEq, Repr

/-- A non-nil `io.Writer` value: the standard error stream, a rotating-file writer, or any
other writer of the caller, told apart by a tag. -/
inductive Writer : Type where
  | Stderr
  | Lumberjack (l : LumberjackLogger)
  | Other (tag : Nat)
deriving DecidableEq, Repr

/-- Options define some options for building a Log (options.go, lines 19-23). -/
structure Options where
  writer : Option Writer
  level : Level
  encoding : String
deriving DecidableEq, Repr

/-- Go's `Option`, a func wrapping `*Options` (options.go, line 26); renamed because
`Option` is Lean's own type. -/
abbrev LogOption := Options → Options

/-- FileOptions define the file writer options (options.go, lines 95-106). -/
structure FileOptions where
  filename : String
  maxSize : Int
  maxAge : Int
  maxBackups : Int
  compress : Option Bool
deriving DecidableEq, Repr

/-- FileOption define a func wraps FileOptions (options.go, line 109). -/
abbrev FileOption := FileOptions → FileOptions

/-! ## options.go -/

/-- WithWriter specify the writer where log to write. -/
def WithWriter (writer : Option Writer) : LogOption :=
  fun o => { o with writer := writer }

/-- WithLevel specify the log level. -/
def WithLevel (level : Level) : LogOption :=
  fun o => { o with level := level }

/-- WithEncoding specify the format of output. -/
def WithEncoding (encoding : String) : LogOption :=
  fun o => { o with encoding := encoding }

/-- WithFilename specify the filename where log to write. -/
def WithFilename (filename : String) : FileOption :=
  fun o => { o with filename := filename }

/-- WithMaxSize specify maximum size in MB of the file before it gets rotated. -/
def WithMaxSize (maxSize : Int) : FileOption :=
  fun o => { o with maxSize := maxSize }

/-- WithMaxAge specify the maximum number days to retain old files. -/
def WithMaxAge (maxAge : Int) : FileOption :=
  fun o => { o with maxAge := maxAge }

/-- WithMaxBackups specify the maximum number of old log files to retain. -/
def WithMaxBackups (maxBackups : Int) : FileOption :=
  fun o => { o with maxBackups := maxBackups }

/-- WithCompress specify if the rotated files should be compressed using gzip. -/
def WithCompress (compress : Bool) : FileOption :=
  fun o => { o with compress := some compress }

/-- The rotating writer that `WithFileWriter` constructs (options.go, lines 61-90): the
file options are applied in order to a zero `FileOptions`, zero fields get their defaults,
and the result is copied into a `lumberjack.Logger`. -/
def fileWriter (options : List FileOption) : LumberjackLogger :=
  let fo : FileOptions :=
    { filename := "", maxSize := 0, maxAge := 0, maxBackups := 0, compress := none }
  let fo := options.foldl (fun fo option => option fo) fo
  let fo := if fo.filename = "" then { fo with filename := "/tmp/log/lumberjack.log" } else fo
  let fo := if fo.maxSize = 0 then { fo with maxSize := 200 } else fo
  let fo := if fo.maxAge = 0 then { fo with maxAge := 7 } else fo
  let fo := if fo.maxBackups = 0 then { fo with maxBackups := 10 } else fo
  let compress := true
  let fo := if fo.compress = none then { fo with compress := some compress } else fo
  { Filename := fo.filename
    MaxSize := fo.maxSize
    MaxAge := fo.maxAge
    MaxBackups := fo.maxBackups
    Compress := fo.compress.getD compress
    LocalTime := true }

/-- WithFileWriter support write log to local file, with the FileOption configures. -/
def WithFileWriter (options : List FileOption) : LogOption :=
  WithWriter (some (Writer.Lumberjack (fileWriter options)))

/-! ## log.go: New -/

/-- New initialize the options for building (log.go, lines 47-64). -/
def New (options : List LogOption) : Options :=
  let o : Options := { writer := none, level := 0, encoding := "" }
  let o := options.foldl (fun o option => option o) o
  let o := if o.writer = none then { o with writer := some Writer.Stderr } else o
  let o := if o.level = 0 then { o with level := InfoLevel } else o
  let o := if o.encoding = "" then { o with encoding := ConsoleEncoder } else o
  o

/-! ## options.go: WithLevelString -/

/-- The level names known to `WithLevelString` (options.go, lines 10-16); the Go map is
an association list with pairwise distinct keys. -/
def _levelConvert : List (String × Level) :=
  [("debug", DebugLevel),
   ("info", InfoLevel),
   ("warn", WarnLevel),
   ("error", ErrorLevel),
   ("fatal", FatalLevel)]

/-- The part of Go's Unicode case tables that is not spelled out in `unicodeToLower`: the
lower-case mapping of the runes from U+0080 on, other than U+0130 and U+212A. Those two are
the only runes outside ASCII whose lower-case form is an ASCII letter, so the table maps
runes outside ASCII to runes outside ASCII. -/
structure CaseTable where
  lower : Char → Char
  lower_nonascii : ∀ c : Char, 128 ≤ c.toNat → 128 ≤ (lower c).toNat

/-- Go's `unicode.ToLower`: the ASCII branch of the library, then the two runes whose
lower-case form is an ASCII letter (U+0130 to `i`, U+212A to `k`), then the case table. -/
def unicodeToLower (T : CaseTable) (r : Char) : Char :=
  if r.toNat ≤ 127 then
    if 'A'.toNat ≤ r.toNat ∧ r.toNat ≤ 'Z'.toNat then
      Char.ofNat (r.toNat + ('a'.toNat - 'A'.toNat))
    else r
  else if r.toNat = 0x130 then 'i'
  else if r.toNat = 0x212A then 'k'
  else T.lower r

/-- Go's `strings.ToLower` on a valid UTF-8 string: every rune mapped by `unicode.ToLower`. -/
def ToLower (T : CaseTable) (s : String) : String :=
  String.mk (s.data.map (unicodeToLower T))

/-- WithLevelString convert the level to Level type, if not exists, we set it as
InfoLevel default (options.go, lines 43-50). -/
def WithLevelString (T : CaseTable) (levelString : String) : LogOption :=
  let level :=
    match _levelConvert.lookup (ToLower T levelString) with
    | some level => level
    | none => InfoLevel
  WithLevel level

/-- A case table that leaves every rune unchanged (no cased letters beyond ASCII, U+0130
and U+212A). -/
def CaseTable.trivial : CaseTable where
  lower := fun c => c
  lower_nonascii := fun _ h => h

/-- A case table knowing the Latin-1 capitals U+00C0 to U+00DE (U+00D7, the multiplication
sign, apart), whose lower-case form is 32 code points further. -/
def CaseTable.latin1 : CaseTable where
  lower := fun c =>
    if 0xC0 ≤ c.toNat ∧ c.toNat ≤ 0xDE ∧ c.toNat ≠ 0xD7 then Char.ofNat (c.toNat + 32) else c
  lower_nonascii := by
    intro c h
    show 128 ≤ (if 0xC0 ≤ c.toNat ∧ c.toNat ≤ 0xDE ∧ c.toNat ≠ 0xD7 then
      Char.ofNat (c.toNat + 32) else c).toNat
    by_cases hc : 0xC0 ≤ c.toNat ∧ c.toNat ≤ 0xDE ∧ c.toNat ≠ 0xD7
    · rw [if_pos hc]
      obtain ⟨h1, h2, -⟩ := hc
      generalize c.toNat = n at h1 h2
      interval_cases n <;> decide
    · rw [if_neg hc]; exact h

/-! ## log.go: Build -/

/-- The time encoders of zapcore that `Build` chooses between. -/
inductive TimeEncoder : Type where
  | ISO8601TimeEncoder
  | EpochTimeEncoder
deriving DecidableEq, Repr

/-- The level encoders of zapcore that `Build` chooses between. -/
inductive LevelEncoder : Type where
  | CapitalLevelEncoder
  | LowercaseLevelEncoder
deriving DecidableEq, Repr

/-- The two fields of `zapcore.EncoderConfig` that `Build` assigns. -/
structure EncoderConfig where
  EncodeTime : TimeEncoder
  EncodeLevel : LevelEncoder
deriving DecidableEq, Repr

/-- The value of `zap.NewProductionEncoderConfig()` on those two fields. -/
def NewProductionEncoderConfig : EncoderConfig :=
  { EncodeTime := TimeEncoder.EpochTimeEncoder, EncodeLevel := LevelEncoder.LowercaseLevelEncoder }

/-- An encoder built by `zapcore.NewConsoleEncoder` or `zapcore.NewJSONEncoder`; either
constructor takes the configuration by value, as it is at the time of the call. -/
inductive Encoder : Type where
  | NewConsoleEncoder (cfg : EncoderConfig)
  | NewJSONEncoder (cfg : EncoderConfig)
deriving DecidableEq, Repr

/-- The arguments of `zapcore.NewCore(encoder, zapcore.AddSync(writer), level)`. -/
structure Core where
  encoder : Encoder
  writer : Option Writer
  level : Level
deriving DecidableEq, Repr

/-- The arguments of `zap.New(core, zap.AddCaller(), zap.AddCallerSkip(n))`. -/
structure Logger where
  core : Core
  addCaller : Bool
  callerSkip : Nat
deriving DecidableEq, Repr

/-- Log wraps zap logger (log.go, lines 150-152). -/
structure Log where
  logger : Logger
deriving DecidableEq, Repr

/-- Build construct a Log from Options (log.go, lines 67-87). -/
def Options.Build (o : Options) : Log :=
  let encoderConfig := NewProductionEncoderConfig
  let encoderConfig := { encoderConfig with EncodeTime := TimeEncoder.ISO8601TimeEncoder }
  let encoderConfig := { encoderConfig with EncodeLevel := LevelEncoder.CapitalLevelEncoder }
  let encoder := Encoder.NewConsoleEncoder encoderConfig
  let encoder :=
    if o.encoding = JSONEncoder then
      let encoderConfig := { encoderConfig with EncodeTime := TimeEncoder.EpochTimeEncoder }
      let encoderConfig := { encoderConfig with EncodeLevel := LevelEncoder.LowercaseLevelEncoder }
      Encoder.NewJSONEncoder encoderConfig
    else encoder
  let zapCore : Core := { encoder := encoder, writer := o.writer, level := o.level }
  { logger := { core := zapCore, addCaller := true, callerSkip := 1 } }

/-- Modelled from the spec: the level check of the engine, which is not part of the sources:
a message is emitted only if its level is at least the minimum the pipeline was configured
with, and messages at or above the minimum are emitted. -/
def Log.emits (l : Log) (lvl : Level) : Bool :=
  decide (l.logger.core.level ≤ lvl)

/-! ## log.go: the process-wide logger -/

/-- The package-level variables of log.go: `_logger` is a global Log. -/
structure Globals where
  _logger : Log
deriving DecidableEq, Repr

/-- The package state after initialisation: `var _logger = New().Build()`. -/
def Globals.init : Globals :=
  { _logger := (New []).Build }

/-- SetOptions set options (log.go, lines 90-92). -/
def SetOptions (options : List LogOption) (g : Globals) : Globals :=
  { g with _logger := (New options).Build }

/-- A run of the package: the `SetOptions` calls made so far, oldest first. -/
def runSetOptions : List (List LogOption) → Globals → Globals
  | [], g => g
  | options :: rest, g => runSetOptions rest (SetOptions options g)

/-! ## log.go: the logging surface -/

/-- A Go `interface` value passed as a log argument or carried by a field. -/
inductive Any : Type where
  | Str (s : String)
  | Num (n : Int)
  | Flag (b : Bool)
deriving DecidableEq, Repr

/-- Field is alias of zap.Field: a key and a value. -/
structure Field where
  Key : String
  Value : Any
deriving DecidableEq, Repr

/-- The five severity-named methods that the engine offers on a logger. -/
inductive Severity : Type where
  | Debug
  | Info
  | Warn
  | Error
  | Fatal
deriving DecidableEq, Repr

/-- The level at which the engine method of that name logs (zap: "Debug logs a message at
DebugLevel", and so on). -/
def Severity.level : Severity → Level
  | Severity.Debug => DebugLevel
  | Severity.Info => InfoLevel
  | Severity.Warn => WarnLevel
  | Severity.Error => ErrorLevel
  | Severity.Fatal => FatalLevel

/-- SugaredLogger is alias of zap.SugaredLogger: the sugared view of a zap logger. -/
structure SugaredLogger where
  base : Logger
deriving DecidableEq, Repr

/-- What the facade asks of the engine: the method invoked, on which logger, with which
arguments. -/
inductive EngineCall : Type where
  | Sugar (s : SugaredLogger) (method : Severity) (args : List Any)
  | Sugarf (s : SugaredLogger) (method : Severity) (template : String) (args : List Any)
  | Structured (l : Logger) (method : Severity) (msg : String) (fields : List Field)
  | SugarSync (s : SugaredLogger)
  | LoggerSync (l : Logger)
deriving DecidableEq, Repr

/-- The zap logger an engine call is made on. -/
def EngineCall.target : EngineCall → Logger
  | EngineCall.Sugar s _ _ => s.base
  | EngineCall.Sugarf s _ _ _ => s.base
  | EngineCall.Structured l _ _ _ => l
  | EngineCall.SugarSync s => s.base
  | EngineCall.LoggerSync l => l

/-- The severity an engine call logs at, none for a flush. -/
def EngineCall.severity : EngineCall → Option Severity
  | EngineCall.Sugar _ m _ => some m
  | EngineCall.Sugarf _ m _ _ => some m
  | EngineCall.Structured _ m _ _ => some m
  | EngineCall.SugarSync _ => none
  | EngineCall.LoggerSync _ => none

/-- The engine method `(*zap.Logger).Sugar`. -/
def Logger.Sugar (l : Logger) : SugaredLogger := { base := l }

/-- Sugar calls the logger's Sugar method (log.go, lines 190-192). -/
def Log.Sugar (l : Log) : SugaredLogger := l.logger.Sugar

/-- Debug logs a message at level Debug on the standard logger. -/
def Debug (g : Globals) (args : List Any) : EngineCall :=
  EngineCall.Sugar g._logger.Sugar Severity.Debug args

/-- Info logs a message at level Info on the standard logger. -/
def Info (g : Globals) (args : List Any) : EngineCall :=
  EngineCall.Sugar g._logger.Sugar Severity.Info args

/-- Warn logs a message at level Warn on the standard logger. -/
def Warn (g : Globals) (args : List Any) : EngineCall :=
  EngineCall.Sugar g._logger.Sugar Severity.Warn args

/-- Error logs a message at level Error on the standard logger. -/
def Error (g : Globals) (args : List Any) : EngineCall :=
  EngineCall.Sugar g._logger.Sugar Severity.Error args

/-- Fatal logs a message at level Fatal on the standard logger. -/
def Fatal (g : Globals) (args : List Any) : EngineCall :=
  EngineCall.Sugar g._logger.Sugar Severity.Fatal args

/-- Debugf logs a message at level Debug on the standard logger. -/
def Debugf (g : Globals) (template : String) (args : List Any) : EngineCall :=
  EngineCall.Sugarf g._logger.Sugar Severity.Debug template args

/-- Infof logs a message at level Info on the standard logger. -/
def Infof (g : Globals) (template : String) (args : List Any) : EngineCall :=
  EngineCall.Sugarf g._logger.Sugar Severity.Info template args

/-- Warnf logs a message at level Warn on the standard logger. -/
def Warnf (g : Globals) (template : String) (args : List Any) : EngineCall :=
  EngineCall.Sugarf g._logger.Sugar Severity.Warn template args

/-- Errorf logs a message at level Error on the standard logger. -/
def Errorf (g : Globals) (template : String) (args : List Any) : EngineCall :=
  EngineCall.Sugarf g._logger.Sugar Severity.Error template args

/-- Fatalf logs a message at level Fatal on the standard logger. -/
def Fatalf (g : Globals) (template : String) (args : List Any) : EngineCall :=
  EngineCall.Sugarf g._logger.Sugar Severity.Fatal template args

/-- Sync calls the sugar's Sync method. -/
def Sync (g : Globals) : EngineCall :=
  EngineCall.SugarSync g._logger.Sugar

/-- Debug logs a message at DebugLevel (method of Log). -/
def Log.Debug (l : Log) (msg : String) (fields : List Field) : EngineCall :=
  EngineCall.Structured l.logger Severity.Debug msg fields

/-- Info logs a message at InfoLevel (method of Log). -/
def Log.Info (l : Log) (msg : String) (fields : List Field) : EngineCall :=
  EngineCall.Structured l.logger Severity.Info msg fields

/-- Warn logs a message at WarnLevel (method of Log). -/
def Log.Warn (l : Log) (msg : String) (fields : List Field) : EngineCall :=
  EngineCall.Structured l.logger Severity.Warn msg fields

/-- Error logs a message at ErrorLevel (method of Log). -/
def Log.Error (l : Log) (msg : String) (fields : List Field) : EngineCall :=
  EngineCall.Structured l.logger Severity.Error msg fields

/-- Fatal logs a message at FatalLevel (method of Log). -/
def Log.Fatal (l : Log) (msg : String) (fields : List Field) : EngineCall :=
  EngineCall.Structured l.logger Severity.Fatal msg fields

/-- Sync calls the logger's Sync method (method of Log). -/
def Log.Sync (l : Log) : EngineCall :=
  EngineCall.LoggerSync l.logger

/-! ## Specification-side vocabulary

The claims speak of sequences of calls to the exported option constructors; a call is a
piece of syntax, run by the constructor of the same name. -/

/-- A call to one of the exported file-option constructors. -/
inductive FileOptionCall : Type where
  | WithFilename (filename : String)
  | WithMaxSize (maxSize : Int)
  | WithMaxAge (maxAge : Int)
  | WithMaxBackups (maxBackups : Int)
  | WithCompress (compress : Bool)
deriving DecidableEq, Repr

/-- The file option a call evaluates to. -/
def FileOptionCall.run : FileOptionCall → FileOption
  | FileOptionCall.WithFilename f => GoLog.WithFilename f
  | FileOptionCall.WithMaxSize n => GoLog.WithMaxSize n
  | FileOptionCall.WithMaxAge n => GoLog.WithMaxAge n
  | FileOptionCall.WithMaxBackups n => GoLog.WithMaxBackups n
  | FileOptionCall.WithCompress b => GoLog.WithCompress b

/-- A call to one of the exported option constructors. -/
inductive OptionCall : Type where
  | WithWriter (writer : Option Writer)
  | WithLevel (level : Level)
  | WithLevelString (levelString : String)
  | WithEncoding (encoding : String)
  | WithFileWriter (options : List FileOptionCall)
deriving DecidableEq

/-- The option a call evaluates to. -/
def OptionCall.run (T : CaseTable) : OptionCall → LogOption
  | OptionCall.WithWriter w => GoLog.WithWriter w
  | OptionCall.WithLevel l => GoLog.WithLevel l
  | OptionCall.WithLevelString s => GoLog.WithLevelString T s
  | OptionCall.WithEncoding e => GoLog.WithEncoding e
  | OptionCall.WithFileWriter fs => GoLog.WithFileWriter (fs.map FileOptionCall.run)

/-- The value given by the last element of the sequence that gives one. -/
def lastSet {α β : Type} (sets : α → Option β) (calls : List α) : Option β :=
  (calls.filterMap sets).getLast?

/-- The filename a file-option call sets, if it sets the filename. -/
def FileOptionCall.filename? : FileOptionCall → Option String
  | FileOptionCall.WithFilename f => some f
  | _ => none

/-- The size a file-option call sets, if it sets the size. -/
def FileOptionCall.maxSize? : FileOptionCall → Option Int
  | FileOptionCall.WithMaxSize n => some n
  | _ => none

/-- The age a file-option call sets, if it sets the age. -/
def FileOptionCall.maxAge? : FileOptionCall → Option Int
  | FileOptionCall.WithMaxAge n => some n
  | _ => none

/-- The backup count a file-option call sets, if it sets the backup count. -/
def FileOptionCall.maxBackups? : FileOptionCall → Option Int
  | FileOptionCall.WithMaxBackups n => some n
  | _ => none

/-- The compression flag a file-option call sets, if it sets the flag. -/
def FileOptionCall.compress? : FileOptionCall → Option Bool
  | FileOptionCall.WithCompress b => some b
  | _ => none

/-- A number with its default: the default stands in for a number that is absent or zero. -/
def orDefault (dflt : Int) : Option Int → Int
  | some v => if v = 0 then dflt else v
  | none => dflt

/-- A string with its default: the default stands in for a string that is absent or empty. -/
def orDefaultString (dflt : String) : Option String → String
  | some v => if v = "" then dflt else v
  | none => dflt

/-- The record the specification describes for a sequence of file-option calls: every field
is what the last call setting it gave, zero and absent numbers are 200, 7 and 10, an absent
or empty filename is the fixed path, and compression is on unless a call set it. -/
def fileWriterSpec (calls : List FileOptionCall) : LumberjackLogger :=
  { Filename := orDefaultString "/tmp/log/lumberjack.log" (lastSet FileOptionCall.filename? calls)
    MaxSize := orDefault 200 (lastSet FileOptionCall.maxSize? calls)
    MaxAge := orDefault 7 (lastSet FileOptionCall.maxAge? calls)
    MaxBackups := orDefault 10 (lastSet FileOptionCall.maxBackups? calls)
    Compress := (lastSet FileOptionCall.compress? calls).getD true
    LocalTime := true }

/-- The writer an option call sets, if it sets the writer. -/
def OptionCall.writer? : OptionCall → Option (Option Writer)
  | OptionCall.WithWriter w => some w
  | OptionCall.WithFileWriter fs => some (some (Writer.Lumberjack (fileWriterSpec fs)))
  | _ => none

/-- Equality of two strings up to letter case, the first being a lower-case ASCII name:
same length, and each character of the second is the letter of the name or its capital. -/
def caseVariantChars : List Char → List Char → Bool
  | [], [] => true
  | n :: name, c :: cs => (c == n || c == n.toUpper) && caseVariantChars name cs
  | _, _ => false

/-- Equality of a string and a lower-case level name up to letter case. -/
def isCaseVariant (name s : String) : Bool :=
  caseVariantChars name.data s.data

/-- The level the specification gives to a level string: the level of the name it equals
up to letter case, and info for every other string. -/
def levelOfName (s : String) : Level :=
  if isCaseVariant "debug" s then DebugLevel
  else if isCaseVariant "info" s then InfoLevel
  else if isCaseVariant "warn" s then WarnLevel
  else if isCaseVariant "error" s then ErrorLevel
  else if isCaseVariant "fatal" s then FatalLevel
  else InfoLevel

/-- The level an option call sets, if it sets the level. -/
def OptionCall.level? : OptionCall → Option Level
  | OptionCall.WithLevel l => some l
  | OptionCall.WithLevelString s => some (levelOfName s)
  | _ => none

/-- The encoding an option call sets, if it sets the encoding. -/
def OptionCall.encoding? : OptionCall → Option String
  | OptionCall.WithEncoding e => some e
  | _ => none

/-- The encoder profile the specification gives to an encoding name: the JSON layout with
epoch timestamps and lower-case level names for "json", and the console layout with ISO-8601
timestamps and capitalized level names otherwise. -/
def encoderProfile (encoding : String) : Encoder :=
  if encoding = "json" then
    Encoder.NewJSONEncoder
      { EncodeTime := TimeEncoder.EpochTimeEncoder
        EncodeLevel := LevelEncoder.LowercaseLevelEncoder }
  else
    Encoder.NewConsoleEncoder
      { EncodeTime := TimeEncoder.ISO8601TimeEncoder
        EncodeLevel := LevelEncoder.CapitalLevelEncoder }

/-- The options applied in order, the first one first. -/
def applyInOrder : List LogOption → Options → Options
  | [], o => o
  | option :: rest, o => applyInOrder rest (option o)

/-- The record with nothing set. -/
def emptyOptions : Options :=
  { writer := none, level := 0, encoding := "" }

/-- The defaults of the specification put in the fields that are unset, that is nil, zero
or empty: standard error, info, console. -/
def withDefaults (o : Options) : Options :=
  { writer := some (o.writer.getD Writer.Stderr)
    level := if o.level = 0 then InfoLevel else o.level
    encoding := if o.encoding = "" then "console" else o.encoding }

/-- The record the specification describes for a sequence of option calls, field by field
from the last call that sets the field. -/
def newSpec (calls : List OptionCall) : Options :=
  { writer := some (((lastSet OptionCall.writer? calls).getD none).getD Writer.Stderr)
    level := (lastSet OptionCall.level? calls).getD InfoLevel
    encoding := orDefaultString "console" (lastSet OptionCall.encoding? calls) }

/-- The zero value of `FileOptions`. -/
def emptyFileOptions : FileOptions :=
  { filename := "", maxSize := 0, maxAge := 0, maxBackups := 0, compress := none }

/-- The letters of the level names other than "info". -/
def nameLetters : List Char :=
  ['d', 'e', 'b', 'u', 'g', 'w', 'a', 'r', 'n', 'o', 'f', 't', 'l']

/-! ## Lemmas on sequences of options -/

theorem lastSet_nil {α β : Type} (sets : α → Option β) : lastSet sets [] = none := rfl

theorem lastSet_cons {α β : Type} (sets : α → Option β) (a : α) (calls : List α) :
    lastSet sets (a :: calls) =
      match sets a with
      | some v => some ((lastSet sets calls).getD v)
      | none => lastSet sets calls := by
  unfold lastSet
  rw [List.filterMap_cons]
  cases h : sets a with
  | none => rfl
  | some v => simp [List.getLast?_cons]

/-- Running a sequence of setters leaves in a field what the last call setting that field
gave, and the initial content when no call sets it. -/
theorem foldl_run_field {σ α β : Type} (run : α → σ → σ) (proj : σ → β) (sets : α → Option β)
    (h : ∀ a s, proj (run a s) = (sets a).getD (proj s)) (calls : List α) (s : σ) :
    proj ((calls.map run).foldl (fun s f => f s) s) = (lastSet sets calls).getD (proj s) := by
  induction calls generalizing s with
  | nil => simp [lastSet_nil]
  | cons a calls ih =>
    rw [List.map_cons, List.foldl_cons, ih, h, lastSet_cons]
    cases sets a with
    | none => rfl
    | some v => cases lastSet sets calls <;> rfl

theorem foldl_eq_applyInOrder (options : List LogOption) (o : Options) :
    options.foldl (fun o option => option o) o = applyInOrder options o := by
  induction options generalizing o with
  | nil => rfl
  | cons f fs ih => rw [List.foldl_cons, ih]; rfl

theorem lastSet_map_some {α β : Type} (sets : α → Option β) (calls : List α) :
    lastSet (fun a => (sets a).map some) calls = (lastSet sets calls).map some := by
  induction calls with
  | nil => rfl
  | cons a calls ih =>
    rw [lastSet_cons, lastSet_cons, ih]
    cases sets a with
    | none => rfl
    | some v => cases lastSet sets calls <;> rfl

theorem orDefault_eq (dflt : Int) (x : Option Int) :
    orDefault dflt x = if x.getD 0 = 0 then dflt else x.getD 0 := by
  cases x with
  | none => rfl
  | some v => rfl

theorem orDefaultString_eq (dflt : String) (x : Option String) :
    orDefaultString dflt x = if x.getD "" = "" then dflt else x.getD "" := by
  cases x with
  | none => rfl
  | some v => rfl

/-- The default-filling steps of `WithFileWriter`, field by field. -/
theorem fileWriter_fields (options : List FileOption) :
    fileWriter options =
      { Filename :=
          if (options.foldl (fun fo option => option fo) emptyFileOptions).filename = "" then
            "/tmp/log/lumberjack.log"
          else (options.foldl (fun fo option => option fo) emptyFileOptions).filename
        MaxSize :=
          if (options.foldl (fun fo option => option fo) emptyFileOptions).maxSize = 0 then 200
          else (options.foldl (fun fo option => option fo) emptyFileOptions).maxSize
        MaxAge :=
          if (options.foldl (fun fo option => option fo) emptyFileOptions).maxAge = 0 then 7
          else (options.foldl (fun fo option => option fo) emptyFileOptions).maxAge
        MaxBackups :=
          if (options.foldl (fun fo option => option fo) emptyFileOptions).maxBackups = 0 then 10
          else (options.foldl (fun fo option => option fo) emptyFileOptions).maxBackups
        Compress :=
          ((options.foldl (fun fo option => option fo) emptyFileOptions).compress).getD true
        LocalTime := true } := by
  simp only [fileWriter, emptyFileOptions]
  generalize List.foldl (fun fo option => option fo)
    ({ filename := "", maxSize := 0, maxAge := 0, maxBackups := 0, compress := none } : FileOptions)
    options = fo
  obtain ⟨fn, ms, ma, mb, cp⟩ := fo
  by_cases h1 : fn = "" <;> by_cases h2 : ms = 0 <;> by_cases h3 : ma = 0 <;>
    by_cases h4 : mb = 0 <;> cases cp <;> simp [h1, h2, h3, h4]

theorem fileWriter_eq_spec (calls : List FileOptionCall) :
    fileWriter (calls.map FileOptionCall.run) = fileWriterSpec calls := by
  have hf := foldl_run_field FileOptionCall.run FileOptions.filename FileOptionCall.filename?
    (by intro a s; cases a <;> rfl) calls emptyFileOptions
  have hs := foldl_run_field FileOptionCall.run FileOptions.maxSize FileOptionCall.maxSize?
    (by intro a s; cases a <;> rfl) calls emptyFileOptions
  have ha := foldl_run_field FileOptionCall.run FileOptions.maxAge FileOptionCall.maxAge?
    (by intro a s; cases a <;> rfl) calls emptyFileOptions
  have hb := foldl_run_field FileOptionCall.run FileOptions.maxBackups FileOptionCall.maxBackups?
    (by intro a s; cases a <;> rfl) calls emptyFileOptions
  have hc := foldl_run_field FileOptionCall.run FileOptions.compress
    (fun c => (FileOptionCall.compress? c).map some)
    (by intro a s; cases a <;> rfl) calls emptyFileOptions
  rw [lastSet_map_some] at hc
  rw [fileWriter_fields, hf, hs, ha, hb, hc]
  unfold fileWriterSpec
  rw [orDefault_eq, orDefault_eq, orDefault_eq, orDefaultString_eq]
  cases lastSet FileOptionCall.compress? calls <;> rfl

/-! ## Lemmas on lower-casing -/

theorem unicodeToLower_ascii (T : CaseTable) (c : Char) (h : c.toNat ≤ 127) :
    unicodeToLower T c = unicodeToLower CaseTable.trivial c := by
  unfold unicodeToLower
  rw [if_pos h, if_pos h]

set_option maxRecDepth 100000 in
theorem ascii_lower_table :
    ∀ k : Nat, k < 128 → ∀ n ∈ 'i' :: nameLetters,
      (unicodeToLower CaseTable.trivial (Char.ofNat k) = n ↔
        (Char.ofNat k == n || Char.ofNat k == n.toUpper) = true) := by
  decide

theorem nameLetters_facts :
    ∀ n ∈ 'i' :: nameLetters, n.toNat ≤ 127 ∧ n.toUpper.toNat ≤ 127 := by
  decide

theorem nameLetters_not_ik : ∀ n ∈ nameLetters, n ≠ 'i' ∧ n ≠ 'k' := by
  decide

/-- A letter or its capital lower-cases to the letter. -/
theorem unicodeToLower_of_variant (T : CaseTable) (n : Char) (hn : n ∈ 'i' :: nameLetters)
    (c : Char) (h : (c == n || c == n.toUpper) = true) : unicodeToLower T c = n := by
  have hc : c.toNat ≤ 127 := by
    have hf := nameLetters_facts n hn
    rcases Bool.or_eq_true _ _ ▸ h with h1 | h1
    · rw [beq_iff_eq] at h1; rw [h1]; exact hf.1
    · rw [beq_iff_eq] at h1; rw [h1]; exact hf.2
  rw [unicodeToLower_ascii T c hc]
  have key := ascii_lower_table c.toNat (by omega) n hn
  rw [Char.ofNat_toNat] at key
  exact key.mpr h

/-- Only a letter and its capital lower-case to a letter of a level name other than "info". -/
theorem variant_of_unicodeToLower (T : CaseTable) (n : Char) (hn : n ∈ nameLetters)
    (c : Char) (h : unicodeToLower T c = n) : (c == n || c == n.toUpper) = true := by
  by_cases hc : c.toNat ≤ 127
  · rw [unicodeToLower_ascii T c hc] at h
    have key := ascii_lower_table c.toNat (by omega) n (List.mem_cons_of_mem _ hn)
    rw [Char.ofNat_toNat] at key
    exact key.mp h
  · exfalso
    have hik := nameLetters_not_ik n hn
    have hf := nameLetters_facts n (List.mem_cons_of_mem _ hn)
    unfold unicodeToLower at h
    rw [if_neg hc] at h
    split_ifs at h with h1 h2
    · exact hik.1 h.symm
    · exact hik.2 h.symm
    · have := T.lower_nonascii c (by omega)
      rw [h] at this
      omega

theorem caseVariantChars_cons (n : Char) (name : List Char) (c : Char) (cs : List Char) :
    caseVariantChars (n :: name) (c :: cs) =
      ((c == n || c == n.toUpper) && caseVariantChars name cs) := rfl

theorem map_lower_eq_iff (T : CaseTable) (name : List Char) (hname : ∀ n ∈ name, n ∈ nameLetters)
    (cs : List Char) :
    cs.map (unicodeToLower T) = name ↔ caseVariantChars name cs = true := by
  induction name generalizing cs with
  | nil =>
    cases cs with
    | nil => simp [caseVariantChars]
    | cons c cs => simp [caseVariantChars]
  | cons n name ih =>
    cases cs with
    | nil => simp [caseVariantChars]
    | cons c cs =>
      have hn : n ∈ nameLetters := hname n (List.mem_cons_self _ _)
      have ih2 := ih (fun m hm => hname m (List.mem_cons_of_mem _ hm)) cs
      rw [List.map_cons, List.cons.injEq, ih2, caseVariantChars_cons, Bool.and_eq_true]
      constructor
      · rintro ⟨h1, h2⟩
        exact ⟨variant_of_unicodeToLower T n hn c h1, h2⟩
      · rintro ⟨h1, h2⟩
        exact ⟨unicodeToLower_of_variant T n (List.mem_cons_of_mem _ hn) c h1, h2⟩

theorem map_lower_of_variant (T : CaseTable) (name : List Char)
    (hname : ∀ n ∈ name, n ∈ 'i' :: nameLetters) (cs : List Char)
    (h : caseVariantChars name cs = true) : cs.map (unicodeToLower T) = name := by
  induction name generalizing cs with
  | nil =>
    cases cs with
    | nil => rfl
    | cons c cs => simp [caseVariantChars] at h
  | cons n name ih =>
    cases cs with
    | nil => simp [caseVariantChars] at h
    | cons c cs =>
      rw [caseVariantChars_cons, Bool.and_eq_true] at h
      rw [List.map_cons, ih (fun m hm => hname m (List.mem_cons_of_mem _ hm)) cs h.2,
        unicodeToLower_of_variant T n (hname n (List.mem_cons_self _ _)) c h.1]

theorem ToLower_eq_iff (T : CaseTable) (name s : String)
    (hname : ∀ n ∈ name.data, n ∈ nameLetters) :
    ToLower T s = name ↔ isCaseVariant name s = true := by
  unfold ToLower isCaseVariant
  rw [← map_lower_eq_iff T name.data hname s.data, String.ext_iff]

theorem ToLower_of_variant (T : CaseTable) (name s : String)
    (hname : ∀ n ∈ name.data, n ∈ 'i' :: nameLetters) (h : isCaseVariant name s = true) :
    ToLower T s = name := by
  unfold ToLower
  rw [String.ext_iff]
  exact map_lower_of_variant T name.data hname s.data h

/-- The level `WithLevelString` looks up is the level of the name the string equals up to
letter case, and info for every other string. -/
theorem lookup_level_eq (T : CaseTable) (s : String) :
    (match _levelConvert.lookup (ToLower T s) with
      | some level => level
      | none => InfoLevel) = levelOfName s := by
  have hd := ToLower_eq_iff T "debug" s (by decide)
  have hw := ToLower_eq_iff T "warn" s (by decide)
  have he := ToLower_eq_iff T "error" s (by decide)
  have hf := ToLower_eq_iff T "fatal" s (by decide)
  have hi := ToLower_of_variant T "info" s (by decide)
  unfold levelOfName
  generalize ToLower T s = k at hd hw he hf hi
  by_cases h1 : k = "debug"
  · subst h1
    rw [if_pos (hd.mp rfl)]; rfl
  · have n1 : ¬ isCaseVariant "debug" s = true := fun h => h1 (hd.mpr h)
    rw [if_neg n1]
    by_cases h2 : k = "info"
    · subst h2
      have n3 : ¬ isCaseVariant "warn" s = true := fun h => absurd (hw.mpr h) (by decide)
      have n4 : ¬ isCaseVariant "error" s = true := fun h => absurd (he.mpr h) (by decide)
      have n5 : ¬ isCaseVariant "fatal" s = true := fun h => absurd (hf.mpr h) (by decide)
      rw [if_neg n3, if_neg n4, if_neg n5]
      split_ifs <;> rfl
    · have n2 : ¬ isCaseVariant "info" s = true := fun h => h2 (hi h)
      rw [if_neg n2]
      by_cases h3 : k = "warn"
      · subst h3
        rw [if_pos (hw.mp rfl)]; rfl
      · have n3 : ¬ isCaseVariant "warn" s = true := fun h => h3 (hw.mpr h)
        rw [if_neg n3]
        by_cases h4 : k = "error"
        · subst h4
          rw [if_pos (he.mp rfl)]; rfl
        · have n4 : ¬ isCaseVariant "error" s = true := fun h => h4 (he.mpr h)
          rw [if_neg n4]
          by_cases h5 : k = "fatal"
          · subst h5
            rw [if_pos (hf.mp rfl)]; rfl
          · have n5 : ¬ isCaseVariant "fatal" s = true := fun h => h5 (hf.mpr h)
            rw [if_neg n5]
            have e1 : (k == "debug") = false := beq_false_of_ne h1
            have e2 : (k == "info") = false := beq_false_of_ne h2
            have e3 : (k == "warn") = false := beq_false_of_ne h3
            have e4 : (k == "error") = false := beq_false_of_ne h4
            have e5 : (k == "fatal") = false := beq_false_of_ne h5
            simp only [_levelConvert, List.lookup, e1, e2, e3, e4, e5]

/-! ## Lemmas on New -/

theorem WithLevelString_eq (T : CaseTable) (s : String) :
    WithLevelString T s = WithLevel (levelOfName s) := by
  unfold WithLevelString
  simp only [lookup_level_eq]

/-- The default-filling steps of `New`, field by field. -/
theorem New_eq_withDefaults (options : List LogOption) :
    New options = withDefaults (applyInOrder options emptyOptions) := by
  rw [← foldl_eq_applyInOrder]
  simp only [New, emptyOptions, withDefaults]
  generalize List.foldl (fun o option => option o)
    ({ writer := none, level := 0, encoding := "" } : Options) options = o
  obtain ⟨w, l, e⟩ := o
  cases w <;> by_cases h2 : l = 0 <;> by_cases h3 : e = "" <;>
    simp [h2, h3, ConsoleEncoder]

theorem run_writer (T : CaseTable) (a : OptionCall) (o : Options) :
    (a.run T o).writer = (a.writer?).getD o.writer := by
  cases a with
  | WithFileWriter fs =>
    show some (Writer.Lumberjack (fileWriter (fs.map FileOptionCall.run))) = _
    rw [fileWriter_eq_spec]; rfl
  | _ => rfl

theorem run_level (T : CaseTable) (a : OptionCall) (o : Options) :
    (a.run T o).level = (a.level?).getD o.level := by
  cases a with
  | WithLevelString s =>
    show (WithLevelString T s o).level = _
    rw [WithLevelString_eq]; rfl
  | _ => rfl

theorem run_encoding (T : CaseTable) (a : OptionCall) (o : Options) :
    (a.run T o).encoding = (a.encoding?).getD o.encoding := by
  cases a <;> rfl

theorem New_eq_newSpec (T : CaseTable) (calls : List OptionCall) :
    New (calls.map (OptionCall.run T)) = newSpec calls := by
  have hw := foldl_run_field (OptionCall.run T) Options.writer OptionCall.writer?
    (run_writer T) calls emptyOptions
  have hl := foldl_run_field (OptionCall.run T) Options.level OptionCall.level?
    (run_level T) calls emptyOptions
  have he := foldl_run_field (OptionCall.run T) Options.encoding OptionCall.encoding?
    (run_encoding T) calls emptyOptions
  rw [New_eq_withDefaults, ← foldl_eq_applyInOrder]
  unfold withDefaults newSpec
  rw [hw, hl, he, orDefaultString_eq]
  congr 1
  show (if (lastSet OptionCall.level? calls).getD 0 = 0 then (0 : Int)
    else (lastSet OptionCall.level? calls).getD 0) = _
  split_ifs with h
  · exact h.symm
  · rfl

theorem Build_encoder (o : Options) :
    o.Build.logger.core.encoder = encoderProfile o.encoding := by
  unfold Options.Build encoderProfile
  by_cases h : o.encoding = "json"
  · simp [h, JSONEncoder, NewProductionEncoderConfig]
  · simp [h, JSONEncoder, NewProductionEncoderConfig]

theorem Build_level (o : Options) : o.Build.logger.core.level = o.level := rfl

theorem Build_writer (o : Options) : o.Build.logger.core.writer = o.writer := rfl

theorem runSetOptions_append (earlier : List (List LogOption)) (options : List LogOption)
    (g : Globals) :
    runSetOptions (earlier ++ [options]) g = SetOptions options (runSetOptions earlier g) := by
  induction earlier generalizing g with
  | nil => rfl
  | cons first rest ih => exact ih (SetOptions first g)

/-! ## The claims -/

/-- C1: for every sequence of options, New returns the record obtained by applying the
options in order to the empty record and then putting the defaults (standard error, info,
console) in the fields that are still unset; with no option the result is exactly
(stderr, InfoLevel, "console"); and for every sequence of calls to the exported
constructors each field is determined by the last call that sets it. -/
theorem New_defaults_and_last_option_wins :
    (∀ options : List LogOption,
      New options = withDefaults (applyInOrder options emptyOptions)) ∧
    New [] = { writer := some Writer.Stderr, level := InfoLevel, encoding := "console" } ∧
    (∀ (T : CaseTable) (calls : List OptionCall),
      New (calls.map (OptionCall.run T)) = newSpec calls) :=
  ⟨New_eq_withDefaults, by decide, New_eq_newSpec⟩

/-- C2: for every string s, New(WithLevelString(s)) has the level of the name that s equals
up to letter case among "debug", "info", "warn", "error", "fatal", and InfoLevel for every
other string (the empty string and names with surrounding blanks among them); the call
always returns a record (writer and encoding are the defaults). -/
theorem WithLevelString_resolves_level (T : CaseTable) (s : String) :
    New [WithLevelString T s] =
      { writer := some Writer.Stderr, level := levelOfName s, encoding := "console" } ∧
    (levelOfName "debug" = DebugLevel ∧ levelOfName "DeBuG" = DebugLevel ∧
      levelOfName "INFO" = InfoLevel ∧ levelOfName "Warn" = WarnLevel ∧
      levelOfName "eRROR" = ErrorLevel ∧ levelOfName "FATAL" = FatalLevel) ∧
    (levelOfName "" = InfoLevel ∧ levelOfName " debug" = InfoLevel ∧
      levelOfName "fatal " = InfoLevel ∧ levelOfName "verbose" = InfoLevel) := by
  refine ⟨?_, by decide, by decide⟩
  have h := New_eq_newSpec T [OptionCall.WithLevelString s]
  simpa [OptionCall.run, newSpec, lastSet, OptionCall.writer?, OptionCall.level?,
    OptionCall.encoding?, orDefaultString] using h

/-- C3: for every sequence of file options, WithFileWriter resolves a number that no option
set, or that is zero, to its default (maxSize 200, maxAge 7, maxBackups 10), an unset
filename to "/tmp/log/lumberjack.log" and compress to true when WithCompress was not
supplied; with no file option the writer is configured with exactly
("/tmp/log/lumberjack.log", 200, 7, 10, compress = true), and that writer is the one
plugged into the options. -/
theorem WithFileWriter_resolves_defaults :
    (∀ calls : List FileOptionCall,
      fileWriter (calls.map FileOptionCall.run) = fileWriterSpec calls) ∧
    fileWriter [] =
      { Filename := "/tmp/log/lumberjack.log", MaxSize := 200, MaxAge := 7, MaxBackups := 10,
        Compress := true, LocalTime := true } ∧
    (∀ (calls : List FileOptionCall) (o : Options),
      (WithFileWriter (calls.map FileOptionCall.run) o).writer =
        some (Writer.Lumberjack (fileWriterSpec calls))) := by
  refine ⟨fileWriter_eq_spec, by decide, ?_⟩
  intro calls o
  rw [← fileWriter_eq_spec]
  rfl

/-- C4: a logger built by New(WithLevel(M)).Build() emits a message logged at L if and only
if M ≤ L, the five levels being strictly ordered debug < info < warn < error < fatal, and
the level bound to the pipeline is the M chosen with WithLevel (DebugLevel included). -/
theorem Build_level_filter :
    (∀ M L : Level, ((New [WithLevel M]).Build).emits L = true ↔ M ≤ L) ∧
    (DebugLevel < InfoLevel ∧ InfoLevel < WarnLevel ∧ WarnLevel < ErrorLevel ∧
      ErrorLevel < FatalLevel) ∧
    (∀ M : Level, ((New [WithLevel M]).Build).logger.core.level = M) := by
  have hlevel : ∀ M : Level, ((New [WithLevel M]).Build).logger.core.level = M := by
    intro M
    rw [Build_level]
    have h := New_eq_newSpec CaseTable.trivial [OptionCall.WithLevel M]
    have h2 : (New [WithLevel M]).level = (newSpec [OptionCall.WithLevel M]).level :=
      congrArg Options.level h
    rw [h2]
    rfl
  refine ⟨?_, by decide, hlevel⟩
  intro M L
  unfold Log.emits
  rw [hlevel M, decide_eq_true_iff]

/-- C5, as stated, fails: New keeps the string of WithEncoding("xml") as the encoding, which
is neither "console" nor "json". -/
theorem New_encoding_not_always_supported :
    (New [WithEncoding "xml"]).encoding = "xml" ∧
    ¬ ((New [WithEncoding "xml"]).encoding = "console" ∨
      (New [WithEncoding "xml"]).encoding = "json") := by
  decide

/-- C5, amended: for every sequence of calls to the option constructors, the encoding of the
record New returns is "console" when no WithEncoding occurs or the last WithEncoding argument
is empty, and otherwise it is the last WithEncoding argument, stored unchanged whatever the
string; so it is "console" or "json" exactly when the last WithEncoding argument, if there is
one, is "", "console" or "json" (earlier arguments do not matter); and Build selects the JSON
encoder exactly when that last argument is "json" and the console encoder for every other
string. In particular New(WithEncoding(s)) stores every non-empty s as it is and Build turns
it into the encoder profile of s. -/
theorem New_encoding_is_last_WithEncoding (T : CaseTable) (calls : List OptionCall) :
    (New (calls.map (OptionCall.run T))).encoding =
      (match lastSet OptionCall.encoding? calls with
        | none => "console"
        | some e => if e = "" then "console" else e) ∧
    (((New (calls.map (OptionCall.run T))).encoding = "console" ∨
        (New (calls.map (OptionCall.run T))).encoding = "json") ↔
      (lastSet OptionCall.encoding? calls = none ∨
        lastSet OptionCall.encoding? calls = some "" ∨
        lastSet OptionCall.encoding? calls = some "console" ∨
        lastSet OptionCall.encoding? calls = some "json")) ∧
    (New (calls.map (OptionCall.run T))).Build.logger.core.encoder =
      (if lastSet OptionCall.encoding? calls = some "json" then
        Encoder.NewJSONEncoder
          { EncodeTime := TimeEncoder.EpochTimeEncoder
            EncodeLevel := LevelEncoder.LowercaseLevelEncoder }
      else
        Encoder.NewConsoleEncoder
          { EncodeTime := TimeEncoder.ISO8601TimeEncoder
            EncodeLevel := LevelEncoder.CapitalLevelEncoder }) ∧
    (∀ s : String,
      (New [WithEncoding s]).encoding = (if s = "" then "console" else s) ∧
      (New [WithEncoding s]).Build.logger.core.encoder = encoderProfile s) := by
  have henc : (New (calls.map (OptionCall.run T))).encoding =
      orDefaultString "console" (lastSet OptionCall.encoding? calls) := by
    rw [New_eq_newSpec]; rfl
  have hone : ∀ s : String, (New [WithEncoding s]).encoding = (if s = "" then "console" else s) := by
    intro s
    have h := congrArg Options.encoding (New_eq_newSpec T [OptionCall.WithEncoding s])
    exact h
  refine ⟨?_, ?_, ?_, ?_⟩
  · rw [henc]
    cases lastSet OptionCall.encoding? calls <;> rfl
  · rw [henc]
    cases lastSet OptionCall.encoding? calls with
    | none => simp [orDefaultString]
    | some e =>
      by_cases he : e = ""
      · simp [orDefaultString, he]
      · simp [orDefaultString, he]
  · rw [Build_encoder, henc]
    cases lastSet OptionCall.encoding? calls with
    | none => simp [orDefaultString, encoderProfile]
    | some e =>
      by_cases he : e = ""
      · simp [orDefaultString, encoderProfile, he]
      · simp [orDefaultString, encoderProfile, he]
  · intro s
    refine ⟨hone s, ?_⟩
    rw [Build_encoder, hone s]
    by_cases hs : s = ""
    · rw [if_pos hs, hs]; decide
    · rw [if_neg hs]

/-- C6: Build selects the encoder from the encoding field alone: the JSON encoder with epoch
timestamps and lower-case level names when the encoding is "json", the console encoder with
ISO-8601 timestamps and capitalized level names when it is "console" (and for any other
string), and no other combination. -/
theorem Build_selects_profile :
    (∀ o : Options, o.Build.logger.core.encoder = encoderProfile o.encoding) ∧
    encoderProfile "json" =
      Encoder.NewJSONEncoder
        { EncodeTime := TimeEncoder.EpochTimeEncoder
          EncodeLevel := LevelEncoder.LowercaseLevelEncoder } ∧
    encoderProfile "console" =
      Encoder.NewConsoleEncoder
        { EncodeTime := TimeEncoder.ISO8601TimeEncoder
          EncodeLevel := LevelEncoder.CapitalLevelEncoder } :=
  ⟨Build_encoder, by decide, by decide⟩

/-- C7, as stated, fails: WithMaxBackups(0) does not make 0 the number of retained files,
the writer is configured with MaxBackups = 10. -/
theorem WithFileWriter_not_pass_through :
    fileWriter [WithFilename "app.log", WithMaxSize 1, WithMaxAge 1, WithMaxBackups 0,
        WithCompress false] =
      { Filename := "app.log", MaxSize := 1, MaxAge := 1, MaxBackups := 10,
        Compress := false, LocalTime := true } ∧
    (fileWriter [WithFilename "app.log", WithMaxSize 1, WithMaxAge 1, WithMaxBackups 0,
        WithCompress false]).MaxBackups ≠ 0 := by
  decide

/-- C7, amended: WithFileWriter(WithFilename(f), WithMaxSize(size), WithMaxAge(age),
WithMaxBackups(backups), WithCompress(c)) configures the rotating writer with Filename = f
unless f is empty, MaxSize = size, MaxAge = age and MaxBackups = backups unless the number
is zero (then the defaults "/tmp/log/lumberjack.log", 200, 7, 10 apply), Compress = c and
LocalTime = true, and plugs that writer into the options. -/
theorem WithFileWriter_pass_through_nonzero (f : String) (size age backups : Int) (c : Bool) :
    fileWriter [WithFilename f, WithMaxSize size, WithMaxAge age, WithMaxBackups backups,
        WithCompress c] =
      { Filename := if f = "" then "/tmp/log/lumberjack.log" else f
        MaxSize := if size = 0 then 200 else size
        MaxAge := if age = 0 then 7 else age
        MaxBackups := if backups = 0 then 10 else backups
        Compress := c
        LocalTime := true } ∧
    ∀ o : Options,
      (WithFileWriter [WithFilename f, WithMaxSize size, WithMaxAge age,
          WithMaxBackups backups, WithCompress c] o).writer =
        some (Writer.Lumberjack
          { Filename := if f = "" then "/tmp/log/lumberjack.log" else f
            MaxSize := if size = 0 then 200 else size
            MaxAge := if age = 0 then 7 else age
            MaxBackups := if backups = 0 then 10 else backups
            Compress := c
            LocalTime := true }) := by
  have h : fileWriter [WithFilename f, WithMaxSize size, WithMaxAge age,
      WithMaxBackups backups, WithCompress c] =
      { Filename := if f = "" then "/tmp/log/lumberjack.log" else f
        MaxSize := if size = 0 then 200 else size
        MaxAge := if age = 0 then 7 else age
        MaxBackups := if backups = 0 then 10 else backups
        Compress := c
        LocalTime := true } := by
    rw [fileWriter_fields]
    rfl
  refine ⟨h, ?_⟩
  intro o
  show some (Writer.Lumberjack (fileWriter _)) = _
  rw [h]

/-- C8: the process-wide logger is the logger built from no option (stderr, info, console)
before any SetOptions call, and after a SetOptions(opts...) call it is exactly
New(opts...).Build(), whatever the calls made before (SetOptions(WithLevel(DebugLevel)) then
SetOptions(WithEncoding("json")) leaves the level at info); every free logging function and
Sync make their engine call on that instance. -/
theorem SetOptions_installs_fresh_logger :
    Globals.init._logger = (New []).Build ∧
    New [] = { writer := some Writer.Stderr, level := InfoLevel, encoding := "console" } ∧
    (∀ (g : Globals) (earlier : List (List LogOption)) (options : List LogOption),
      (runSetOptions (earlier ++ [options]) g)._logger = (New options).Build) ∧
    (runSetOptions [[WithLevel DebugLevel], [WithEncoding "json"]] Globals.init)._logger =
      (New [WithEncoding "json"]).Build ∧
    (runSetOptions [[WithLevel DebugLevel], [WithEncoding "json"]]
      Globals.init)._logger.logger.core.level = InfoLevel ∧
    (∀ (g : Globals) (args : List Any) (template : String),
      (Debug g args).target = g._logger.logger ∧ (Info g args).target = g._logger.logger ∧
      (Warn g args).target = g._logger.logger ∧ (Error g args).target = g._logger.logger ∧
      (Fatal g args).target = g._logger.logger ∧
      (Debugf g template args).target = g._logger.logger ∧
      (Infof g template args).target = g._logger.logger ∧
      (Warnf g template args).target = g._logger.logger ∧
      (Errorf g template args).target = g._logger.logger ∧
      (Fatalf g template args).target = g._logger.logger ∧
      (Sync g).target = g._logger.logger) := by
  refine ⟨rfl, by decide, ?_, by decide, by decide, ?_⟩
  · intro g earlier options
    rw [runSetOptions_append]
    rfl
  · intro g args template
    exact ⟨rfl, rfl, rfl, rfl, rfl, rfl, rfl, rfl, rfl, rfl, rfl⟩

/-- C10: every severity-named entry point hands its message to the engine at the severity
of its own name, with its arguments unchanged and in order: the free functions X(args...)
and Xf(template, args...) call the sugared X and Xf of the global logger, the method
(*Log).X(msg, fields...) calls X of the wrapped logger, and the level of the call is the
level named X. -/
theorem entry_points_forward_at_own_level (g : Globals) (l : Log) (args : List Any)
    (template msg : String) (fields : List Field) :
    (Debug g args = EngineCall.Sugar g._logger.logger.Sugar Severity.Debug args ∧
      Info g args = EngineCall.Sugar g._logger.logger.Sugar Severity.Info args ∧
      Warn g args = EngineCall.Sugar g._logger.logger.Sugar Severity.Warn args ∧
      Error g args = EngineCall.Sugar g._logger.logger.Sugar Severity.Error args ∧
      Fatal g args = EngineCall.Sugar g._logger.logger.Sugar Severity.Fatal args) ∧
    (Debugf g template args =
        EngineCall.Sugarf g._logger.logger.Sugar Severity.Debug template args ∧
      Infof g template args =
        EngineCall.Sugarf g._logger.logger.Sugar Severity.Info template args ∧
      Warnf g template args =
        EngineCall.Sugarf g._logger.logger.Sugar Severity.Warn template args ∧
      Errorf g template args =
        EngineCall.Sugarf g._logger.logger.Sugar Severity.Error template args ∧
      Fatalf g template args =
        EngineCall.Sugarf g._logger.logger.Sugar Severity.Fatal template args) ∧
    (l.Debug msg fields = EngineCall.Structured l.logger Severity.Debug msg fields ∧
      l.Info msg fields = EngineCall.Structured l.logger Severity.Info msg fields ∧
      l.Warn msg fields = EngineCall.Structured l.logger Severity.Warn msg fields ∧
      l.Error msg fields = EngineCall.Structured l.logger Severity.Error msg fields ∧
      l.Fatal msg fields = EngineCall.Structured l.logger Severity.Fatal msg fields) ∧
    ([Debug g args, Debugf g template args, l.Debug msg fields].map
        (fun call => call.severity.map Severity.level) =
        [some DebugLevel, some DebugLevel, some DebugLevel] ∧
      [Info g args, Infof g template args, l.Info msg fields].map
        (fun call => call.severity.map Severity.level) =
        [some InfoLevel, some InfoLevel, some InfoLevel] ∧
      [Warn g args, Warnf g template args, l.Warn msg fields].map
        (fun call => call.severity.map Severity.level) =
        [some WarnLevel, some WarnLevel, some WarnLevel] ∧
      [Error g args, Errorf g template args, l.Error msg fields].map
        (fun call => call.severity.map Severity.level) =
        [some ErrorLevel, some ErrorLevel, some ErrorLevel] ∧
      [Fatal g args, Fatalf g template args, l.Fatal msg fields].map
        (fun call => call.severity.map Severity.level) =
        [some FatalLevel, some FatalLevel, some FatalLevel]) :=
  ⟨⟨rfl, rfl, rfl, rfl, rfl⟩, ⟨rfl, rfl, rfl, rfl, rfl⟩, ⟨rfl, rfl, rfl, rfl, rfl⟩,
    ⟨rfl, rfl, rfl, rfl, rfl⟩⟩

end GoLog
